import Mathlib

/-!
Shallow embedding of `src/base/file.cpp` (Taiga's file utility layer) and
proofs of the specification's testable properties about it.

Wide strings (`std::wstring`) are embedded as lists of characters.  Helpers
that live in other translation units of the repository (`string.cpp`,
`time.cpp`, `file_search.cpp`) are modelled from the specification's
description and carry a doc comment saying so.
-/

namespace Taiga

/-- Embedding of `std::wstring` as a list of characters. -/
abbrev WStr := List Char

/-- Modelled from the spec: case-insensitive string comparison helper
`IsEqual` (defined in `string.cpp`, outside this file); the directory-walk
filter "case-insensitively matches" extensions, so comparison folds ASCII
case on both sides. -/
def IsEqual (a b : WStr) : Bool :=
  a.map Char.toLower == b.map Char.toLower

/-- Modelled from the spec: `IsNumericChar` (defined in `string.cpp`,
outside this file) recognises the decimal digit characters of the "numeric
value" part of a size string. -/
def IsNumericChar (c : Char) : Bool :=
  '0' ≤ c && c ≤ '9'

/-- Modelled from the spec: `TrimLeft` (from `string.cpp`) removes the given
characters from the front of a string. -/
def TrimLeft (s trimChars : WStr) : WStr :=
  s.dropWhile (fun c => trimChars.contains c)

/-- Modelled from the spec: `TrimRight` (from `string.cpp`) removes the given
characters from the end of a string. -/
def TrimRight (s trimChars : WStr) : WStr :=
  (s.reverse.dropWhile (fun c => trimChars.contains c)).reverse

/-- Modelled from the spec: `Trim` (from `string.cpp`) removes the given
characters from both ends of a string. -/
def Trim (s trimChars : WStr) : WStr :=
  TrimLeft (TrimRight s trimChars) trimChars

/-- Modelled from the spec: `EraseChars` (from `string.cpp`) deletes every
occurrence of the given characters from a string. -/
def EraseChars (s eraseSet : WStr) : WStr :=
  s.filter (fun c => !eraseSet.contains c)

/-- Modelled from the spec: `GetFileExtension` (from `string.cpp`) returns
the file-name text after the last dot (the whole name when it has no dot,
matching the usual `substr(find_last_of + 1)` idiom). -/
def GetFileExtension (s : WStr) : WStr :=
  (s.reverse.takeWhile (fun c => c != '.')).reverse

/-- Modelled from the spec: `GetFileWithoutExtension` (from `string.cpp`)
returns the file name with its trailing `.extension` removed (the whole name
when it has no dot). -/
def GetFileWithoutExtension (s : WStr) : WStr :=
  if s.contains '.' then s.take (s.length - (GetFileExtension s).length - 1)
  else s

/-- Modelled from the spec: `GetPathOnly` (from `string.cpp`) returns the
directory part of a path, up to the last backslash. -/
def GetPathOnly (s : WStr) : WStr :=
  if s.contains '\\' then s.take (s.length - (s.reverse.takeWhile (fun c => c != '\\')).length)
  else s

/-- Value of the digit string under the usual left-to-right accumulation. -/
def digitsToNat (ds : WStr) : Nat :=
  ds.foldl (fun acc c => acc * 10 + (c.toNat - '0'.toNat)) 0

/-- The fraction digits following the integer part: the digit run after a
leading decimal point, empty otherwise. -/
def fracDigits : WStr → WStr
  | '.' :: r => r.takeWhile IsNumericChar
  | _ => []

/-- Modelled from the spec: `ToDouble` (from `string.cpp`, a `wcstod`
wrapper) converts the leading numeric text — integer digits, then an
optional decimal point and fraction digits — of a string to a number;
input with no leading digits yields 0.  Embedded with exact rational
arithmetic. -/
def ToDouble (s : WStr) : ℚ :=
  (digitsToNat (s.takeWhile IsNumericChar) : ℚ) +
    (digitsToNat (fracDigits (s.drop (s.takeWhile IsNumericChar).length)) : ℚ) /
      (10 : ℚ) ^ (fracDigits (s.drop (s.takeWhile IsNumericChar).length)).length

/-- Modelled from the spec: `ToWstr(double, count)` (from `string.cpp`)
renders a number in fixed-point form with `count` fractional digits,
rounding to the nearest representable value.  Embedded with exact rational
arithmetic; the values this file feeds it are nonnegative. -/
def ToWstrFixed (q : ℚ) (count : Nat) : WStr :=
  let scaled := (⌊q * (10 : ℚ) ^ count + 1 / 2⌋).toNat
  let whole := Nat.toDigits 10 (scaled / 10 ^ count)
  if count = 0 then whole
  else
    let fd := Nat.toDigits 10 (scaled % 10 ^ count)
    whole ++ '.' :: (List.replicate (count - fd.length) '0' ++ fd)

/-- `GetExtendedLengthPath`'s reserved prefix `\\?\` (file.cpp:205). -/
def longPathPfx : WStr := "\\\\?\\".data

/-- Embeds `GetExtendedLengthPath` (file.cpp:204-216): a path already
carrying the `\\?\` prefix is returned unchanged; a UNC path `\\…` becomes
`\\?\UNC\…`; any other path gets the plain prefix. -/
def GetExtendedLengthPath (path : WStr) : WStr :=
  if longPathPfx.isPrefixOf path then path
  else if ("\\\\".data).isPrefixOf path then longPathPfx ++ "UNC\\".data ++ path.drop 2
  else longPathPfx ++ path

/-- The unit-suffix multiplier chain of `ParseSizeString`
(file.cpp:442-455), matched case-insensitively via `IsEqual`. -/
def sizeOfUnit (unit : WStr) : Nat :=
  if IsEqual unit ("KB".data) then 1000
  else if IsEqual unit ("KiB".data) then 1024
  else if IsEqual unit ("MB".data) then 1000 * 1000
  else if IsEqual unit ("MiB".data) then 1024 * 1024
  else if IsEqual unit ("GB".data) then 1000 * 1000 * 1000
  else if IsEqual unit ("GiB".data) then 1024 * 1024 * 1024
  else 1

/-- The suffix-splitting step of `ParseSizeString` (file.cpp:431-440): when
the cleaned string has at least two characters, the maximal run of
non-numeric characters at its end is peeled off as the unit (then trimmed of
spaces) and the value keeps the rest. -/
def splitUnit (v : WStr) : WStr × WStr :=
  if 2 ≤ v.length then
    (v.take (v.length - ((v.reverse.takeWhile (fun c => !IsNumericChar c)).reverse).length),
     Trim ((v.reverse.takeWhile (fun c => !IsNumericChar c)).reverse) [' '])
  else (v, [])

/-- Embeds `ParseSizeString` (file.cpp:427-458): trailing `.`/CR trimmed,
spaces erased, unit suffix split off and looked up in the multiplier table,
and the numeric part scaled by the multiplier.  The `static_cast<UINT64>`
truncation toward zero is a floor on the nonnegative values produced
here. -/
def ParseSizeString (input : WStr) : Nat :=
  (⌊(sizeOfUnit (splitUnit (EraseChars (TrimRight input ['.', '\x0d']) [' '])).2 : ℚ) *
      ToDouble (splitUnit (EraseChars (TrimRight input ['.', '\x0d']) [' '])).1⌋).toNat

/-- Embeds `ToSizeString` (file.cpp:460-478): strictly above 2^30 render in
"GB" (dividing by 2^30, two decimals), strictly above 2^20 in "MB",
strictly above 2^10 in "KB", otherwise a plain digit count with
" bytes". -/
def ToSizeString (qwSize : Nat) : WStr :=
  if 1073741824 < qwSize then ToWstrFixed ((qwSize : ℚ) / 1073741824) 2 ++ " GB".data
  else if 1048576 < qwSize then ToWstrFixed ((qwSize : ℚ) / 1048576) 2 ++ " MB".data
  else if 1024 < qwSize then ToWstrFixed ((qwSize : ℚ) / 1024) 2 ++ " KB".data
  else Nat.toDigits 10 qwSize ++ " bytes".data

/-- A file-system object as the embedded OS sees it: directory flag, last
modification time (in 100-nanosecond FILETIME ticks) and content bytes. -/
structure FileInfo where
  isDir : Bool
  mtime : Nat
  content : WStr

/-- Oracles for the outcomes of OS calls that are outside the program's
control: success of the metadata/read/write primitives on a valid handle,
the current time, the date renderer from `time.cpp`, the registry, the
shell, process creation and the shell file operation. -/
structure Env where
  sizeOk : Bool
  timeOk : Bool
  timeToSystemOk : Bool
  readOk : Bool
  writeOk : Bool
  openWriteOk : Bool
  now : Nat
  dateStr : Nat → WStr
  shellExecCode : WStr → WStr → Nat → Int
  registry : WStr → WStr
  createProcessOk : WStr → Bool
  shFileOpCode : WStr → Int

/-- OS state threaded through the embedded operations: the file namespace
(keyed by extended-length path — the OS resolves a path and its `\\?\` form
to the same object, and `GetExtendedLengthPath` is idempotent), the next
fresh handle number and the list of currently open handles. -/
structure St where
  fs : WStr → Option FileInfo
  next : Nat
  opened : List Nat

/-- Embeds `OpenFileForGenericRead` (file.cpp:30-34), i.e.
`CreateFile(GetExtendedLengthPath(path), GENERIC_READ, …, OPEN_EXISTING, …)`:
fails on a missing object and on a directory (no backup semantics are
requested), otherwise hands out a fresh open handle. -/
def OpenFileForGenericRead (st : St) (path : WStr) : Option (Nat × FileInfo) × St :=
  match st.fs (GetExtendedLengthPath path) with
  | none => (none, st)
  | some info =>
    if info.isDir then (none, st)
    else (some (st.next, info), ⟨st.fs, st.next + 1, st.next :: st.opened⟩)

/-- Embeds `CloseHandle`: removes the handle from the open set. -/
def CloseHandle (st : St) (h : Nat) : St :=
  ⟨st.fs, st.next, st.opened.erase h⟩

/-- Embeds `GetFileAge` (file.cpp:44-75): 0 when the file cannot be opened
or its time cannot be read; otherwise the 64-bit FILETIME difference to now
in seconds, narrowed through the `unsigned long` return. -/
def GetFileAge (env : Env) (st : St) (path : WStr) : Nat × St :=
  match OpenFileForGenericRead st path with
  | (none, st1) => (0, st1)
  | (some (h, info), st1) =>
    let result := env.timeOk
    let st2 := CloseHandle st1 h
    if !result then (0, st2)
    else ((((env.now % 2 ^ 64 + 2 ^ 64 - info.mtime % 2 ^ 64) % 2 ^ 64) / 10000000) % 2 ^ 32, st2)

/-- Embeds `GetFileLastModifiedDate` (file.cpp:77-92): the rendered date of
the file's last-write time, or the empty string on any failure. -/
def GetFileLastModifiedDate (env : Env) (st : St) (path : WStr) : WStr × St :=
  match OpenFileForGenericRead st path with
  | (none, st1) => ([], st1)
  | (some (h, info), st1) =>
    let result := env.timeOk
    let st2 := CloseHandle st1 h
    if result then
      if env.timeToSystemOk then (env.dateStr info.mtime, st2) else ([], st2)
    else ([], st2)

/-- Embeds `GetFileSize` (file.cpp:94-107): `file_size` starts at 0, is set
from `GetFileSizeEx` only on success, and the handle is closed inside the
valid-handle branch. -/
def GetFileSize (env : Env) (st : St) (path : WStr) : Nat × St :=
  match OpenFileForGenericRead st path with
  | (none, st1) => (0, st1)
  | (some (h, info), st1) =>
    let fileSize := if env.sizeOk then info.content.length else 0
    (fileSize, CloseHandle st1 h)

/-- Embeds `FileExists` (file.cpp:237-249): empty paths are rejected,
otherwise the file exists iff a read handle can be opened (and that handle
is closed again). -/
def FileExists (st : St) (file : WStr) : Bool × St :=
  if file.isEmpty then (false, st)
  else
    match OpenFileForGenericRead st file with
    | (none, st1) => (false, st1)
    | (some (h, _), st1) => (true, CloseHandle st1 h)

/-- Embeds `FolderExists` (file.cpp:251-258): attribute query on the
extended-length path; true iff the object exists and has the directory
attribute. -/
def FolderExists (st : St) (path : WStr) : Bool :=
  match st.fs (GetExtendedLengthPath path) with
  | none => false
  | some info => info.isDir

/-- Embeds `ReadFromFile` (file.cpp:374-391).  The `GetFileSizeEx`-failure
branch mirrors the source's early `return false;` at file.cpp:382, which
returns without calling `CloseHandle` on the handle opened at
file.cpp:375. -/
def ReadFromFile (env : Env) (st : St) (path : WStr) : (Bool × WStr) × St :=
  match OpenFileForGenericRead st path with
  | (none, st1) => ((false, []), st1)
  | (some (h, info), st1) =>
    if !env.sizeOk then ((false, []), st1)
    else
      let resized := List.replicate info.content.length (Char.ofNat 0)
      let rr := if env.readOk then (true, info.content.length, info.content)
                else (false, 0, resized)
      let st2 := CloseHandle st1 h
      ((rr.1 && rr.2.1 == info.content.length, rr.2.2), st2)

/-- Embeds `CreateFolder` (file.cpp:183-186): `SHCreateDirectoryEx`
succeeds when it creates the directory or when it already exists. -/
def CreateFolder (st : St) (path : WStr) : Bool × St :=
  match st.fs (GetExtendedLengthPath path) with
  | some info => (info.isDir, st)
  | none =>
    (true,
     ⟨fun p => if p = GetExtendedLengthPath path then some ⟨true, 0, []⟩ else st.fs p,
      st.next, st.opened⟩)

/-- Embeds the `MoveFileEx(path, path + ".bak", MOVEFILE_REPLACE_EXISTING |
MOVEFILE_WRITE_THROUGH)` backup step (file.cpp:399-403): fails without
effect when the source is missing, otherwise renames over the
destination. -/
def MoveFileReplace (st : St) (src dst : WStr) : Bool × St :=
  match st.fs (GetExtendedLengthPath src) with
  | none => (false, st)
  | some info =>
    (true,
     ⟨fun p =>
        if p = GetExtendedLengthPath dst then some info
        else if p = GetExtendedLengthPath src then none
        else st.fs p,
      st.next, st.opened⟩)

/-- Embeds `OpenFileForGenericWrite` (file.cpp:36-40), i.e. `CreateFile`
with `CREATE_ALWAYS`: on success the file is created or truncated and a
fresh open handle is handed out. -/
def OpenFileForGenericWrite (env : Env) (st : St) (path : WStr) : Option Nat × St :=
  if env.openWriteOk then
    (some st.next,
     ⟨fun p => if p = GetExtendedLengthPath path then some ⟨false, env.now, []⟩ else st.fs p,
      st.next + 1, st.next :: st.opened⟩)
  else (none, st)

/-- Embeds the `WriteFile` call of `SaveToFile` (file.cpp:410): on success
the open file's content becomes the written data. -/
def WriteFileOp (env : Env) (st : St) (path : WStr) (data : WStr) : Bool × St :=
  if env.writeOk then
    (true,
     ⟨fun p => if p = GetExtendedLengthPath path then some ⟨false, env.now, data⟩ else st.fs p,
      st.next, st.opened⟩)
  else (false, st)

/-- Embeds the buffer overload of `SaveToFile` (file.cpp:393-415): ensure
the directory exists, optionally take the `.bak` backup, then write through
a generic-write handle, closing it inside the valid-handle branch. -/
def SaveToFileRaw (env : Env) (st : St) (data : WStr) (path : WStr) (takeBackup : Bool) :
    Bool × St :=
  let st1 := (CreateFolder st (GetPathOnly path)).2
  let st2 := if takeBackup then (MoveFileReplace st1 path (path ++ ".bak".data)).2 else st1
  match OpenFileForGenericWrite env st2 path with
  | (none, st3) => (false, st3)
  | (some h, st3) =>
    let wr := WriteFileOp env st3 path data
    (wr.1, CloseHandle wr.2 h)

/-- Embeds the string overload of `SaveToFile` (file.cpp:417-423): empty
data is rejected before anything else happens. -/
def SaveToFile (env : Env) (st : St) (data : WStr) (path : WStr) (takeBackup : Bool) :
    Bool × St :=
  if data.isEmpty then (false, st)
  else SaveToFileRaw env st data path takeBackup

/-- Embeds `DeleteFolder` (file.cpp:188-200).  The source reads
`path.back()` unconditionally to strip a trailing backslash; on the empty
string that access is out of bounds, which the total embedding guards with
`none`.  Otherwise the path is double-null terminated and handed to
`SHFileOperation(FO_DELETE)`, whose status code is returned. -/
def DeleteFolder (env : Env) (path : WStr) : Option Int :=
  match path.getLast? with
  | none => none
  | some c =>
    let p1 := if c = '\\' then path.dropLast else path
    let p2 := p1 ++ [Char.ofNat 0]
    some (env.shFileOpCode p2)

/-- `MAX_PATH` of the Windows headers. -/
def MAX_PATH : Nat := 260

/-- The quote-aware scan of `GetDefaultAppPath` (file.cpp:297-306): the
position of the first space outside double quotes, or the string's length
when there is none. -/
def findBreakPos : WStr → Bool → Nat
  | [], _ => 0
  | c :: rest, insideQuotes =>
    if c = ' ' then
      if insideQuotes then 1 + findBreakPos rest insideQuotes else 0
    else if c = '"' then 1 + findBreakPos rest (!insideQuotes)
    else 1 + findBreakPos rest insideQuotes

/-- Embeds `GetDefaultAppPath` (file.cpp:283-313): resolve the extension's
ProgID and its `shell\open\command` default value in `HKEY_CLASSES_ROOT`,
cut the command line at the first space outside quotes, trim quotes and
spaces, and fall back to the default when everything came out empty. -/
def GetDefaultAppPath (env : Env) (extension defaultValue : WStr) : WStr :=
  let path0 := env.registry extension
  let path1 :=
    if !path0.isEmpty then env.registry (path0 ++ "\\shell\\open\\command".data)
    else path0
  let path2 :=
    if !path1.isEmpty then
      let position := findBreakPos path1 false
      let cut := if position ≠ path1.length then path1.take position else path1
      Trim cut ['"', ' ']
    else path1
  if path2.isEmpty then defaultValue else path2

/-- Embeds `ExecuteFile` (file.cpp:143-165): resolve the registered handler
for the file's extension, fail when there is none, otherwise spawn
`"exe_path" "extended_path" parameters` via `CreateProcess`.  The process
and thread handles `CreateProcess` returns are closed immediately. -/
def ExecuteFile (env : Env) (path parameters : WStr) : Bool :=
  let exePath := GetDefaultAppPath env ('.' :: GetFileExtension path) []
  if exePath.isEmpty then false
  else
    let cmdLine :=
      '"' :: exePath ++ '"' :: ' ' :: '"' :: GetExtendedLengthPath path ++ '"' :: ' ' :: parameters
    if env.createProcessOk cmdLine then true else false

/-- Embeds `Execute` (file.cpp:130-141): empty paths are rejected, paths
longer than `MAX_PATH` fall back to `ExecuteFile`, and everything else goes
through `ShellExecute`, succeeding iff its result exceeds 32. -/
def Execute (env : Env) (path parameters : WStr) (showCommand : Nat) : Bool :=
  if path.isEmpty then false
  else if MAX_PATH < path.length then ExecuteFile env path parameters
  else 32 < env.shellExecCode path parameters showCommand

/-- Modelled from the spec: the directory layout over which the reusable
directory-walk helper (`FileSearchHelper`, defined outside this file)
operates — each directory holds file entries and subdirectories. -/
inductive DirTree where
  | mk (files : List WStr) (subdirs : List DirTree)

mutual
/-- Modelled from the spec: the walk primitive invokes the file callback
for every file under the root, descending into subdirectories unless
`skipSubdirs` is set.  The helper's early-stop protocol never triggers for
the constant-`false` callbacks used in this file, so the visited list fully
determines the folds below. -/
def visitedFiles (skipSubdirs : Bool) : DirTree → List WStr
  | .mk files subdirs =>
    files ++ (if skipSubdirs then [] else visitedFilesList skipSubdirs subdirs)

/-- Modelled from the spec: the walk over a directory's subdirectories. -/
def visitedFilesList (skipSubdirs : Bool) : List DirTree → List WStr
  | [] => []
  | t :: rest => visitedFiles skipSubdirs t ++ visitedFilesList skipSubdirs rest
end

/-- Embeds `PopulateFiles` (file.cpp:329-351): the `OnFile` callback
appends every visited name whose extension passes the (possibly empty)
filter — trimmed of its extension when requested — and counts the appended
entries; the helper runs with `skip_subdirectories = !recursive`. -/
def PopulateFiles (fileList : List WStr) (tree : DirTree) (extension : WStr)
    (recursive trimExtension : Bool) : List WStr × Nat :=
  (visitedFiles (!recursive) tree).foldl
    (fun acc name =>
      if extension.isEmpty || IsEqual (GetFileExtension name) extension then
        (acc.1 ++ [if trimExtension then GetFileWithoutExtension name else name], acc.2 + 1)
      else acc)
    (fileList, 0)

/-- The descending unit table of `ToSizeString`: divisor and rendered
suffix, largest unit first. -/
def unitTable : List (Nat × WStr) :=
  [(1073741824, " GB".data), (1048576, " MB".data), (1024, " KB".data)]

/-- `ToSizeString` as claim C3 words it: pick the largest unit under which
the value is at least 1 (that is, the largest divisor with divisor ≤ value),
render the quotient with two decimal places, and render values below 1024 as
a plain byte count. -/
def toSizeStringClaimed (n : Nat) : WStr :=
  match unitTable.find? (fun e => decide (e.1 ≤ n)) with
  | some e => ToWstrFixed ((n : ℚ) / (e.1 : ℚ)) 2 ++ e.2
  | none => Nat.toDigits 10 n ++ " bytes".data

/-- Claim C3 as amended: pick the largest unit whose divisor the value
strictly exceeds, render the quotient with two decimal places, and render
values up to and including 1024 as a plain byte count. -/
def toSizeStringAmended (n : Nat) : WStr :=
  match unitTable.find? (fun e => decide (e.1 < n)) with
  | some e => ToWstrFixed ((n : ℚ) / (e.1 : ℚ)) 2 ++ e.2
  | none => Nat.toDigits 10 n ++ " bytes".data

/-- A concrete environment with every oracle succeeding, used to
instantiate the general theorems. -/
def envW : Env :=
  ⟨true, true, true, true, true, true, 0, fun _ => [],
   fun _ _ _ => 33, fun _ => [], fun _ => true, fun _ => 0⟩

/-- A concrete OS state with an empty file namespace. -/
def stEmpty : St := ⟨fun _ => none, 0, []⟩

/-- A concrete OS state holding the single ordinary file `f`. -/
def stOneFile : St :=
  ⟨fun p => if p = GetExtendedLengthPath ("f".data) then some ⟨false, 0, "abc".data⟩ else none,
   0, []⟩

/-- A concrete two-level directory tree used to instantiate the
directory-walk theorems. -/
def treeW : DirTree :=
  .mk ["a.MKV".data, "b.txt".data] [.mk ["c.mkv".data] []]

/-! ### Helper lemmas for the size-string parser -/

theorem IsNumericChar_ne_special {c : Char} (h : IsNumericChar c = true) :
    c ≠ ' ' ∧ c ≠ '.' ∧ c ≠ '\x0d' := by
  refine ⟨fun hc => ?_, fun hc => ?_, fun hc => ?_⟩ <;>
    (subst hc; exact absurd h (by decide))

theorem dropWhile_eq_self_of_all {p : Char → Bool} {l : WStr}
    (h : ∀ c ∈ l, p c = false) : l.dropWhile p = l := by
  cases l with
  | nil => rfl
  | cons a t =>
    rw [List.dropWhile_cons, h a (List.mem_cons_self a t)]
    simp

theorem takeWhile_eq_self_of_all {p : Char → Bool} {l : WStr}
    (h : ∀ c ∈ l, p c = true) : l.takeWhile p = l := by
  induction l with
  | nil => rfl
  | cons a t ih =>
    rw [List.takeWhile_cons, h a (List.mem_cons_self a t)]
    simp [ih fun c hc => h c (List.mem_cons_of_mem a hc)]

theorem takeWhile_append_of_all {p : Char → Bool} {a : WStr} (b : WStr)
    (h : ∀ c ∈ a, p c = true) : (a ++ b).takeWhile p = a ++ b.takeWhile p := by
  induction a with
  | nil => rfl
  | cons x t ih =>
    rw [List.cons_append, List.takeWhile_cons, h x (List.mem_cons_self x t)]
    simp [ih fun c hc => h c (List.mem_cons_of_mem x hc)]

theorem trimRight_eq_self {l : WStr} {trimChars : WStr}
    (h : ∀ c ∈ l, trimChars.contains c = false) : TrimRight l trimChars = l := by
  unfold TrimRight
  rw [dropWhile_eq_self_of_all fun c hc => h c (List.mem_reverse.mp hc),
    List.reverse_reverse]

theorem trim_eq_self {l : WStr} {trimChars : WStr}
    (h : ∀ c ∈ l, trimChars.contains c = false) : Trim l trimChars = l := by
  unfold Trim TrimLeft
  rw [trimRight_eq_self h]
  exact dropWhile_eq_self_of_all h

/-- Under digit-only value text and a space-free non-numeric suffix, the
suffix-splitting step of `ParseSizeString` recovers exactly the two
parts. -/
theorem splitUnit_append (d u : WStr) (hd : d ≠ [])
    (hdig : ∀ c ∈ d, IsNumericChar c = true)
    (hu : ∀ c ∈ u, IsNumericChar c = false ∧ c ≠ ' ') :
    splitUnit (d ++ u) = (d, u) := by
  unfold splitUnit
  by_cases hlen : 2 ≤ (d ++ u).length
  · rw [if_pos hlen]
    have hrev : (d ++ u).reverse.takeWhile (fun c => !IsNumericChar c) = u.reverse := by
      rw [List.reverse_append]
      rw [takeWhile_append_of_all d.reverse
        (fun c hc => by rw [(hu c (List.mem_reverse.mp hc)).1]; rfl)]
      cases hdrev : d.reverse with
      | nil => exact absurd (by simpa using hdrev) hd
      | cons c t =>
        have hc : c ∈ d := List.mem_reverse.mp (hdrev ▸ List.mem_cons_self c t)
        rw [List.takeWhile_cons, hdig c hc]
        simp
    rw [hrev, List.reverse_reverse]
    have hlen2 : (d ++ u).length - u.length = d.length := by
      rw [List.length_append]; omega
    rw [hlen2, List.take_left]
    rw [trim_eq_self fun c hc => by
      have := (hu c hc).2
      simp [List.contains, this]]
  · rw [if_neg hlen]
    have hlen1 : d.length + u.length ≤ 1 := by
      have := Nat.lt_of_not_le hlen
      rw [List.length_append] at this
      omega
    have hu0 : u = [] := by
      cases d with
      | nil => exact absurd rfl hd
      | cons a t =>
        cases u with
        | nil => rfl
        | cons b s => simp at hlen1; omega
    subst hu0
    simp

/-- `ToDouble` on a digit-only string is its decimal value. -/
theorem toDouble_digits (d : WStr) (hdig : ∀ c ∈ d, IsNumericChar c = true) :
    ToDouble d = (digitsToNat d : ℚ) := by
  unfold ToDouble
  rw [takeWhile_eq_self_of_all hdig, List.drop_length]
  norm_num [fracDigits, digitsToNat]

/-- Evaluation of `ParseSizeString` on a digit string followed by a clean
suffix: the value scaled by the suffix's multiplier. -/
theorem parseSizeString_eval (d u : WStr) (hd : d ≠ [])
    (hdig : ∀ c ∈ d, IsNumericChar c = true)
    (hu : ∀ c ∈ u, IsNumericChar c = false ∧ c ≠ ' ' ∧ c ≠ '.' ∧ c ≠ '\x0d') :
    ParseSizeString (d ++ u) = sizeOfUnit u * digitsToNat d := by
  unfold ParseSizeString
  have htrim : TrimRight (d ++ u) ['.', '\x0d'] = d ++ u := by
    refine trimRight_eq_self fun c hc => ?_
    rcases List.mem_append.mp hc with hmd | hmu
    · obtain ⟨-, h2, h3⟩ := IsNumericChar_ne_special (hdig _ hmd)
      simp [List.contains, h2, h3]
    · obtain ⟨-, -, h2, h3⟩ := hu _ hmu
      simp [List.contains, h2, h3]
  have herase : EraseChars (d ++ u) [' '] = d ++ u := by
    unfold EraseChars
    refine List.filter_eq_self.mpr fun c hc => ?_
    rcases List.mem_append.mp hc with hmd | hmu
    · obtain ⟨h1, -, -⟩ := IsNumericChar_ne_special (hdig _ hmd)
      simp [List.contains, h1]
    · obtain ⟨-, h1, -, -⟩ := hu _ hmu
      simp [List.contains, h1]
  rw [htrim, herase,
    splitUnit_append d u hd hdig fun c hc => ⟨(hu c hc).1, (hu c hc).2.1⟩]
  rw [toDouble_digits d hdig]
  rw [← Nat.cast_mul, Int.floor_natCast, Int.toNat_natCast]

/-! ### The claims -/

/-- C1: formatting then parsing round-trips within rounding tolerance with
the documented decimal/binary split: `ToSizeString 2147483648 = "2.00 GB"`,
`ParseSizeString "2.00 GB" = 2000000000` and
`ParseSizeString "2.00 GiB" = 2147483648`, so the decimal and binary
suffixes are distinct multipliers. -/
theorem sizeString_roundtrip_decimal_binary_split :
    ToSizeString 2147483648 = "2.00 GB".data
    ∧ ParseSizeString ("2.00 GB".data) = 2000000000
    ∧ ParseSizeString ("2.00 GiB".data) = 2147483648 := by
  refine ⟨?_, ?_, ?_⟩ <;> with_unfolding_all decide

/-- C3 counterexample: at exactly 2^30 bytes the code renders "1024.00 MB"
(its unit guards are strict `>`), while the claim's largest-unit-with-value-
at-least-1 rule would render "1.00 GB"; the claim as stated is false at
this input. -/
theorem toSizeString_claim_counterexample :
    ToSizeString 1073741824 = "1024.00 MB".data
    ∧ toSizeStringClaimed 1073741824 = "1.00 GB".data
    ∧ ToSizeString 1073741824 ≠ toSizeStringClaimed 1073741824 := by
  refine ⟨?_, ?_, ?_⟩ <;> with_unfolding_all decide

/-- C3 as amended: for every byte count, `ToSizeString` selects the largest
unit whose power-of-1024 divisor the value strictly exceeds, rendering the
quotient with two decimal places, and renders values up to and including
1024 as a plain byte count followed by " bytes". -/
theorem toSizeString_strict_unit_selection (n : Nat) :
    ToSizeString n = toSizeStringAmended n := by
  unfold ToSizeString toSizeStringAmended unitTable
  by_cases h1 : 1073741824 < n
  · simp [List.find?, h1]
  · by_cases h2 : 1048576 < n
    · simp [List.find?, h1, h2]
    · by_cases h3 : 1024 < n
      · simp [List.find?, h1, h2, h3]
      · simp [List.find?, h1, h2, h3]

/-- C4: `ParseSizeString` multiplies the numeric part by the multiplier of
its unit suffix — KB by 1000, KiB by 1024, MB by 1000000, MiB by 1048576,
GB by 1000000000, GiB by 1073741824 — and an absent suffix, or one matching
no table entry, leaves the value in raw bytes (multiplier 1). -/
theorem parseSizeString_unit_table (d : WStr) (hd : d ≠ [])
    (hdig : ∀ c ∈ d, IsNumericChar c = true) :
    ParseSizeString (d ++ "KB".data) = 1000 * digitsToNat d
    ∧ ParseSizeString (d ++ "KiB".data) = 1024 * digitsToNat d
    ∧ ParseSizeString (d ++ "MB".data) = 1000000 * digitsToNat d
    ∧ ParseSizeString (d ++ "MiB".data) = 1048576 * digitsToNat d
    ∧ ParseSizeString (d ++ "GB".data) = 1000000000 * digitsToNat d
    ∧ ParseSizeString (d ++ "GiB".data) = 1073741824 * digitsToNat d
    ∧ ParseSizeString d = digitsToNat d
    ∧ ∀ u : WStr,
        (∀ c ∈ u, IsNumericChar c = false ∧ c ≠ ' ' ∧ c ≠ '.' ∧ c ≠ '\x0d') →
        IsEqual u ("KB".data) = false → IsEqual u ("KiB".data) = false →
        IsEqual u ("MB".data) = false → IsEqual u ("MiB".data) = false →
        IsEqual u ("GB".data) = false → IsEqual u ("GiB".data) = false →
        ParseSizeString (d ++ u) = digitsToNat d := by
  refine ⟨?_, ?_, ?_, ?_, ?_, ?_, ?_, ?_⟩
  · have h := parseSizeString_eval d ("KB".data) hd hdig (by decide)
    rw [show sizeOfUnit ("KB".data) = 1000 from by decide] at h
    exact h
  · have h := parseSizeString_eval d ("KiB".data) hd hdig (by decide)
    rw [show sizeOfUnit ("KiB".data) = 1024 from by decide] at h
    exact h
  · have h := parseSizeString_eval d ("MB".data) hd hdig (by decide)
    rw [show sizeOfUnit ("MB".data) = 1000000 from by decide] at h
    exact h
  · have h := parseSizeString_eval d ("MiB".data) hd hdig (by decide)
    rw [show sizeOfUnit ("MiB".data) = 1048576 from by decide] at h
    exact h
  · have h := parseSizeString_eval d ("GB".data) hd hdig (by decide)
    rw [show sizeOfUnit ("GB".data) = 1000000000 from by decide] at h
    exact h
  · have h := parseSizeString_eval d ("GiB".data) hd hdig (by decide)
    rw [show sizeOfUnit ("GiB".data) = 1073741824 from by decide] at h
    exact h
  · have h := parseSizeString_eval d [] hd hdig (by simp)
    rw [List.append_nil, show sizeOfUnit [] = 1 from by decide, one_mul] at h
    exact h
  · intro u hu h1 h2 h3 h4 h5 h6
    have h := parseSizeString_eval d u hd hdig hu
    rw [show sizeOfUnit u = 1 from by simp [sizeOfUnit, h1, h2, h3, h4, h5, h6],
      one_mul] at h
    exact h

/-- C4 witness: the theorem applied to the digit string "25" and the KiB
suffix. -/
theorem parseSizeString_unit_table_witness :
    ParseSizeString ("25".data ++ "KiB".data) = 1024 * digitsToNat ("25".data) :=
  (parseSizeString_unit_table ("25".data) (by decide) (by decide)).2.1

/-- C5: `GetExtendedLengthPath` rewrites a local drive path to its `\\?\`
form, rewrites a UNC path to the `\\?\UNC\` form, and returns any path
already carrying the `\\?\` prefix unchanged. -/
theorem getExtendedLengthPath_rewrites :
    GetExtendedLengthPath ("C:\\foo\\bar".data) = "\\\\?\\C:\\foo\\bar".data
    ∧ GetExtendedLengthPath ("\\\\server\\share".data) = "\\\\?\\UNC\\server\\share".data
    ∧ ∀ p : WStr, longPathPfx.isPrefixOf p = true → GetExtendedLengthPath p = p := by
  refine ⟨by decide, by decide, fun p hp => ?_⟩
  unfold GetExtendedLengthPath
  simp [hp]

/-- C5 witness: the already-prefixed case of the theorem at a concrete
path. -/
theorem getExtendedLengthPath_rewrites_witness :
    GetExtendedLengthPath ("\\\\?\\X:\\y".data) = "\\\\?\\X:\\y".data :=
  getExtendedLengthPath_rewrites.2.2 ("\\\\?\\X:\\y".data) (by decide)

/-- C9: the string overload of `SaveToFile` with empty data returns false
without writing, without taking the `.bak` backup even when requested, and
with the whole OS state (in particular the destination file) unchanged. -/
theorem saveToFile_empty_data_noop (env : Env) (st : St) (path : WStr) (takeBackup : Bool) :
    SaveToFile env st [] path takeBackup = (false, st) := rfl

/-- C10: `DeleteFolder` reads the last character of its argument
unconditionally, so the empty path hits the guarded out-of-bounds branch of
the total embedding; for every non-empty path that branch is unreachable
and a status code is produced. -/
theorem deleteFolder_requires_nonempty_path :
    (∀ env : Env, DeleteFolder env [] = none)
    ∧ ∀ (env : Env) (p : WStr), p ≠ [] → (DeleteFolder env p).isSome = true := by
  refine ⟨fun env => rfl, fun env p hp => ?_⟩
  obtain ⟨l', a, rfl⟩ := (List.eq_nil_or_concat p).resolve_left hp
  unfold DeleteFolder
  rw [List.concat_eq_append, List.getLast?_concat]
  rfl

/-- C10 witness: the theorem at the non-empty path "x". -/
theorem deleteFolder_requires_nonempty_path_witness :
    (DeleteFolder envW ("x".data)).isSome = true :=
  deleteFolder_requires_nonempty_path.2 envW ("x".data) (by decide)

theorem CreateFolder_opened (st : St) (p : WStr) :
    ((CreateFolder st p).2).opened = st.opened := by
  unfold CreateFolder
  cases st.fs (GetExtendedLengthPath p) <;> rfl

theorem MoveFileReplace_opened (st : St) (a b : WStr) :
    ((MoveFileReplace st a b).2).opened = st.opened := by
  unfold MoveFileReplace
  cases st.fs (GetExtendedLengthPath a) <;> rfl

/-- C2: of the handle-opening operations, `GetFileAge`,
`GetFileLastModifiedDate`, `GetFileSize`, `FileExists` and `SaveToFile`
leave the set of open handles unchanged on every path, and `ReadFromFile`
does so whenever `GetFileSizeEx` succeeds; but on the concrete run where the
file exists and `GetFileSizeEx` fails, `ReadFromFile` returns with the
handle it opened still open — the early `return false;` at file.cpp:382
skips `CloseHandle`, contradicting the claim. -/
theorem readFromFile_handle_leak_on_size_failure :
    (∀ (env : Env) (st : St) (p : WStr), ((GetFileAge env st p).2).opened = st.opened)
    ∧ (∀ (env : Env) (st : St) (p : WStr),
        ((GetFileLastModifiedDate env st p).2).opened = st.opened)
    ∧ (∀ (env : Env) (st : St) (p : WStr), ((GetFileSize env st p).2).opened = st.opened)
    ∧ (∀ (st : St) (p : WStr), ((FileExists st p).2).opened = st.opened)
    ∧ (∀ (env : Env) (st : St) (d p : WStr) (tb : Bool),
        ((SaveToFile env st d p tb).2).opened = st.opened)
    ∧ (∀ (env : Env) (st : St) (p : WStr), env.sizeOk = true →
        ((ReadFromFile env st p).2).opened = st.opened)
    ∧ stOneFile.opened = []
    ∧ ((ReadFromFile { envW with sizeOk := false } stOneFile ("f".data)).2).opened = [0] := by
  refine ⟨?_, ?_, ?_, ?_, ?_, ?_, rfl, by decide⟩
  · intro env st p
    unfold GetFileAge OpenFileForGenericRead CloseHandle
    cases hf : st.fs (GetExtendedLengthPath p) with
    | none => rfl
    | some info =>
      by_cases hdir : info.isDir
      · simp [hdir]
      · simp only [hdir, Bool.false_eq_true, if_false]
        split <;> simp [List.erase_cons_head]
  · intro env st p
    unfold GetFileLastModifiedDate OpenFileForGenericRead CloseHandle
    cases hf : st.fs (GetExtendedLengthPath p) with
    | none => rfl
    | some info =>
      by_cases hdir : info.isDir
      · simp [hdir]
      · simp only [hdir, Bool.false_eq_true, if_false]
        split <;> (try split) <;> simp [List.erase_cons_head]
  · intro env st p
    unfold GetFileSize OpenFileForGenericRead CloseHandle
    cases hf : st.fs (GetExtendedLengthPath p) with
    | none => rfl
    | some info =>
      by_cases hdir : info.isDir
      · simp [hdir]
      · simp [hdir, List.erase_cons_head]
  · intro st p
    unfold FileExists OpenFileForGenericRead CloseHandle
    by_cases hp : p.isEmpty
    · simp [hp]
    · simp only [hp, Bool.false_eq_true, if_false]
      cases hf : st.fs (GetExtendedLengthPath p) with
      | none => rfl
      | some info =>
        by_cases hdir : info.isDir
        · simp [hdir]
        · simp [hdir, List.erase_cons_head]
  · intro env st d p tb
    by_cases hd : d.isEmpty
    · unfold SaveToFile
      simp [hd]
    · unfold SaveToFile
      simp only [hd, Bool.false_eq_true, if_false]
      unfold SaveToFileRaw OpenFileForGenericWrite WriteFileOp CloseHandle
      by_cases hw : env.openWriteOk <;>
        cases tb <;>
          cases hwr : env.writeOk <;>
            simp [hw, hwr, List.erase_cons_head, MoveFileReplace_opened,
              CreateFolder_opened]
  · intro env st p hs
    unfold ReadFromFile OpenFileForGenericRead CloseHandle
    cases hf : st.fs (GetExtendedLengthPath p) with
    | none => rfl
    | some info =>
      by_cases hdir : info.isDir
      · simp [hdir]
      · simp [hdir, hs, List.erase_cons_head]

/-- C6: for a path that names no existing resource, `FileExists` and
`FolderExists` report false and `GetFileSize` and `GetFileAge` report 0;
all four are total functions, so absence degrades silently to the default
sentinel with no error raised. -/
theorem nonexistent_path_queries (env : Env) (st : St) (p : WStr)
    (h : st.fs (GetExtendedLengthPath p) = none) :
    (FileExists st p).1 = false
    ∧ FolderExists st p = false
    ∧ (GetFileSize env st p).1 = 0
    ∧ (GetFileAge env st p).1 = 0 := by
  refine ⟨?_, ?_, ?_, ?_⟩
  · unfold FileExists OpenFileForGenericRead
    by_cases hp : p.isEmpty
    · simp [hp]
    · simp [hp, h]
  · unfold FolderExists
    rw [h]
  · unfold GetFileSize OpenFileForGenericRead
    rw [h]
  · unfold GetFileAge OpenFileForGenericRead
    rw [h]

/-- C6 witness: the theorem at the empty file namespace and path "x". -/
theorem nonexistent_path_queries_witness :
    (FileExists stEmpty ("x".data)).1 = false
    ∧ FolderExists stEmpty ("x".data) = false
    ∧ (GetFileSize envW stEmpty ("x".data)).1 = 0
    ∧ (GetFileAge envW stEmpty ("x".data)).1 = 0 :=
  nonexistent_path_queries envW stEmpty ("x".data) rfl

/-- C7: `Execute` rejects the empty path; a path longer than `MAX_PATH`
falls back to `ExecuteFile`; `ExecuteFile` fails when no handler executable
is registered for the file's extension and otherwise spawns the handler
with the executable and extended-length target paths quoted on the command
line; every other path goes through the shell association, succeeding iff
`ShellExecute` returns more than 32. -/
theorem execute_shell_launch_spec :
    (∀ (env : Env) (params : WStr) (sc : Nat), Execute env [] params sc = false)
    ∧ (∀ (env : Env) (p params : WStr) (sc : Nat), MAX_PATH < p.length →
        Execute env p params sc = ExecuteFile env p params)
    ∧ (∀ (env : Env) (p params : WStr),
        GetDefaultAppPath env ('.' :: GetFileExtension p) [] = [] →
        ExecuteFile env p params = false)
    ∧ (∀ (env : Env) (p params : WStr),
        GetDefaultAppPath env ('.' :: GetFileExtension p) [] ≠ [] →
        ExecuteFile env p params =
          env.createProcessOk
            ('"' :: GetDefaultAppPath env ('.' :: GetFileExtension p) [] ++ '"' :: ' ' :: '"' ::
              GetExtendedLengthPath p ++ '"' :: ' ' :: params))
    ∧ (∀ (env : Env) (p params : WStr) (sc : Nat), p ≠ [] → p.length ≤ MAX_PATH →
        Execute env p params sc = decide (32 < env.shellExecCode p params sc)) := by
  refine ⟨fun env params sc => rfl, ?_, ?_, ?_, ?_⟩
  · intro env p params sc hlen
    unfold Execute
    have hpe : p.isEmpty = false := by
      cases p with
      | nil => simp [MAX_PATH] at hlen
      | cons a t => rfl
    simp [hpe, hlen]
  · intro env p params h
    unfold ExecuteFile
    rw [h]
    rfl
  · intro env p params h
    unfold ExecuteFile
    have hie : (GetDefaultAppPath env ('.' :: GetFileExtension p) []).isEmpty = false := by
      cases hgd : GetDefaultAppPath env ('.' :: GetFileExtension p) [] with
      | nil => exact absurd hgd h
      | cons a t => rfl
    simp only [hie, Bool.false_eq_true, if_false]
    cases hcp : env.createProcessOk _ <;> simp [hcp]
  · intro env p params sc hne hle
    unfold Execute
    have hpe : p.isEmpty = false := by
      cases p with
      | nil => exact absurd rfl hne
      | cons a t => rfl
    have hnl : ¬ MAX_PATH < p.length := Nat.not_lt.mpr hle
    simp [hpe, hnl]

set_option maxRecDepth 4000 in
/-- C7 witness: the fallback at a 261-character path and the no-handler
failure, both under the concrete environment whose registry is empty. -/
theorem execute_shell_launch_spec_witness :
    Execute envW (List.replicate 261 'a') [] 0 = ExecuteFile envW (List.replicate 261 'a') []
    ∧ ExecuteFile envW ("v.mkv".data) [] = false :=
  ⟨execute_shell_launch_spec.2.1 envW (List.replicate 261 'a') [] 0 (by decide),
   execute_shell_launch_spec.2.2.1 envW ("v.mkv".data) [] (by decide)⟩

theorem populate_foldl (p : WStr → Bool) (f : WStr → WStr) (names : List WStr) :
    ∀ acc : List WStr × Nat,
      names.foldl (fun a n => if p n then (a.1 ++ [f n], a.2 + 1) else a) acc
        = (acc.1 ++ (names.filter p).map f, acc.2 + (names.filter p).length) := by
  induction names with
  | nil => intro acc; simp
  | cons x t ih =>
    intro acc
    rw [List.foldl_cons, List.filter_cons]
    cases hx : p x
    · simp only [Bool.false_eq_true, if_false]
      rw [ih]
    · simp only [if_true]
      rw [ih]
      simp only [Prod.mk.injEq, List.map_cons, List.length_cons]
      exact ⟨by simp, by omega⟩

theorem populateFiles_closed_form (fl : List WStr) (t : DirTree) (ext : WStr)
    (rec trim : Bool) :
    PopulateFiles fl t ext rec trim =
      (fl ++ ((visitedFiles (!rec) t).filter
          (fun n => ext.isEmpty || IsEqual (GetFileExtension n) ext)).map
          (fun n => if trim then GetFileWithoutExtension n else n),
       ((visitedFiles (!rec) t).filter
          (fun n => ext.isEmpty || IsEqual (GetFileExtension n) ext)).length) := by
  unfold PopulateFiles
  rw [populate_foldl]
  simp

/-- C8: the `PopulateFiles` walk appends exactly the entries passing the
extension filter — for a non-empty filter, those whose extension matches it
case-insensitively; for an empty filter, every file — the returned count
equals the number of entries appended, and with recursion disabled the
subdirectories are never descended into. -/
theorem populateFiles_extension_filter :
    (∀ (fl : List WStr) (t : DirTree) (ext : WStr) (rec trim : Bool),
        (PopulateFiles fl t ext rec trim).1.length =
          fl.length + (PopulateFiles fl t ext rec trim).2)
    ∧ (∀ (fl : List WStr) (t : DirTree) (ext : WStr) (rec : Bool), ext ≠ [] →
        (PopulateFiles fl t ext rec false).1 =
          fl ++ (visitedFiles (!rec) t).filter
            (fun n => IsEqual (GetFileExtension n) ext))
    ∧ (∀ (fl : List WStr) (t : DirTree) (rec : Bool),
        (PopulateFiles fl t [] rec false).1 = fl ++ visitedFiles (!rec) t)
    ∧ (∀ (fl : List WStr) (files : List WStr) (subs : List DirTree) (ext : WStr)
        (trim : Bool),
        PopulateFiles fl (.mk files subs) ext false trim =
          PopulateFiles fl (.mk files []) ext false trim) := by
  refine ⟨?_, ?_, ?_, ?_⟩
  · intro fl t ext rec trim
    rw [populateFiles_closed_form]
    simp
  · intro fl t ext rec hext
    rw [populateFiles_closed_form]
    have hie : ext.isEmpty = false := by
      cases ext with
      | nil => exact absurd rfl hext
      | cons a s => rfl
    simp [hie]
  · intro fl t rec
    rw [populateFiles_closed_form]
    simp
  · intro fl files subs ext trim
    rfl

/-- C8 witness: the non-empty-filter part of the theorem at a concrete
tree, filter "mkv", recursion enabled. -/
theorem populateFiles_extension_filter_witness :
    (PopulateFiles [] treeW ("mkv".data) true false).1 =
      [] ++ (visitedFiles false treeW).filter
        (fun n => IsEqual (GetFileExtension n) ("mkv".data)) :=
  populateFiles_extension_filter.2.1 [] treeW ("mkv".data) true (by decide)

end Taiga
